import Mathlib

/-!
# Verification of the CRASS cross-assembler against its specification

This file is a shallow embedding, in Lean 4, of the parts of the CRASS
two-pass COMPASS cross-assembler (a Python program) that the verified
claims are about, together with theorems settling those claims.

Each definition carries a comment naming the Python function (file and
symbol) it embeds.  Python `int` is embedded as `Int` (Python integers
are unbounded); bit-twiddling on non-negative values uses `Nat`;
Python string tests on the small ASCII `parsed_fmt` tags are embedded
as operations on `List Char`; Python dictionaries used as keyed stores
are embedded as association lists (first match wins, assignment
replaces); raised exceptions become `Except String`.
-/

namespace Crass

/-! ## Relocatability types and binary operators (expression.py)

The evaluator's type tags are the Python strings `'absolute'`,
`'relocatable'`, `'external'`, `'literal_addr'`; the operators are the
characters `+ - * / ^`. -/

inductive RelocType where
  | absolute
  | relocatable
  | external
  | literal_addr
  deriving DecidableEq, Repr

inductive BinOp where
  | add   -- '+'
  | sub   -- '-'
  | mul   -- '*'
  | div   -- '/'
  | xor   -- '^'
  deriving DecidableEq, Repr

open RelocType BinOp

/-- Python `int(val1 / val2)` for `val2 ≠ 0`: true division followed by
truncation toward zero.  (For operands representable exactly as floats
this is truncation toward zero of the exact quotient, i.e. `Int.tdiv`;
the claims never depend on the non-zero-divisor branch's value.) -/
def pyTruncDiv (a b : Int) : Int := Int.tdiv a b

/-- Python `a ^ b` (bitwise xor) on possibly negative integers, i.e.
xor of the two's-complement representations: `Int.xor`. -/
def pyXor (a b : Int) : Int := Int.xor a b

/-- Embeds `expression.py::_apply_reloc_rules` (v1.43, lines 164-202).

The Python function computes `new_type` through an `if`/`elif` chain
(raising `ExpressionError` on the illegal pairings) and then `new_val`
from the operator; it receives only the values and type tags of the
two operands — the operands' blocks are not passed in. -/
def applyRelocRules (val1 : Int) (type1 : RelocType) (op : BinOp)
    (val2 : Int) (type2 : RelocType) : Except String (Int × RelocType) := do
  let newType ←
    match op with
    | .add | .sub =>
      if type1 = absolute ∧ type2 = absolute then pure absolute
      else if type1 = absolute ∧ type2 = relocatable then pure relocatable
      else if type1 = relocatable ∧ type2 = absolute then pure relocatable
      else if type1 = relocatable ∧ type2 = relocatable then
        if op = .sub then pure absolute
        else throw "Illegal op: relocatable + relocatable"
      else if type1 = external ∨ type2 = external then
        if type1 = absolute ∧ type2 = external then pure external
        else if type1 = external ∧ type2 = absolute then pure external
        else if type1 = external ∧ type2 = external then
          throw "Illegal op: external op external"
        else throw "Illegal op: external op relocatable"
      else if type1 = literal_addr ∨ type2 = literal_addr then
        if type1 = literal_addr ∧ type2 = literal_addr then
          if op = .sub then pure absolute
          else throw "Illegal op: literal_addr + literal_addr"
        else if type1 = literal_addr ∧ type2 = absolute then pure literal_addr
        else if type1 = absolute ∧ type2 = literal_addr then pure literal_addr
        else throw "Unsupported op with literal address"
      else throw "Unsupported operation"
    | .mul | .div =>
      let type1eff := if type1 = literal_addr then absolute else type1
      let type2eff := if type2 = literal_addr then absolute else type2
      if type1eff = absolute ∧ type2eff = absolute then pure absolute
      else throw "Illegal op (requires absolute)"
    | .xor =>
      let type1eff := if type1 = literal_addr then absolute else type1
      let type2eff := if type2 = literal_addr then absolute else type2
      if type1eff = absolute ∧ type2eff = absolute then pure absolute
      else throw "Illegal op ^ (requires absolute)"
  let newVal :=
    match op with
    | .add => val1 + val2
    | .sub => val1 - val2
    | .mul => val1 * val2
    | .div => if val2 = 0 then 0 else pyTruncDiv val1 val2
    | .xor => pyXor val1 val2
  pure (newVal, newType)

/-- One operand of `_evaluate_simple_expression`: value, type, block
(the Python triple `(value, type, block)` with `block` a block-name
string or `None`). -/
structure Operand where
  value : Int
  type : RelocType
  block : Option String
  deriving DecidableEq, Repr

/-- Embeds one step of the accumulation loop of
`expression.py::_evaluate_simple_expression` (v1.43, lines 497-504):
apply `_apply_reloc_rules` to the running operand and the next term,
then fix up the running block exactly as the Python does:

```
current_value, current_type = _apply_reloc_rules(...)
if current_type == 'relocatable':
    if current_block is None and next_block is not None and next_type == 'relocatable':
        current_block = next_block
else:
    current_block = None
```
-/
def evalSimpleBinop (cur : Operand) (op : BinOp) (nxt : Operand) :
    Except String Operand := do
  let (v, t) ← applyRelocRules cur.value cur.type op nxt.value nxt.type
  let blk :=
    if t = relocatable then
      if cur.block = none ∧ nxt.block ≠ none ∧ nxt.type = relocatable then
        nxt.block
      else cur.block
    else none
  pure ⟨v, t, blk⟩

end Crass

namespace Crass

/-! ## Conditional-assembly stack (pseudo_op_handlers.py)

`state.conditional_stack` is a Python list of booleans used as a stack
(append/pop at the end; `stack[-1]` is the top, `stack[-2]` the element
beneath it).  We embed it as a `List Bool` whose *head* is the top of
the stack, so Python `append` is `cons`, Python `pop` removes the head,
`stack[-1]` is `head` and `stack[-2]` the second element.  The initial
stack `[(True)]` is `[true]`. -/

/-- A conditional directive as dispatched by
`handle_pseudo_op_pass_1` / `handle_pseudo_op_pass_2`: an `IF*`
directive (with the boolean its condition would evaluate to if
evaluated), `ELSE`, or `ENDIF`. -/
inductive CondDirective where
  | ifd (cond : Bool)
  | elsed
  | endifd
  deriving DecidableEq, Repr

/-- Result of one conditional-directive step: the new stack, whether an
unbalanced-ELSE/ENDIF error was reported, and whether the `IF*`
condition was actually evaluated (`evaluate_condition` called). -/
structure CondStepResult where
  stack : List Bool
  errored : Bool
  condEvaluated : Bool
  deriving DecidableEq, Repr

/-- Embeds the conditional-directive branch of
`pseudo_op_handlers.py::handle_pseudo_op_pass_1` (v2.18, lines 115-141):

* `IF*`: `condition_result = False`; only when the current top is true
  is `evaluate_condition` called; push `top and condition_result`.
* `ELSE`: when only the initial element remains, report an error and
  leave the stack unchanged; otherwise read `stack[-2]`, pop the top
  `t`, and push `outer and (not t)`.
* `ENDIF`: when only the initial element remains, report an error and
  leave the stack unchanged; otherwise pop.
-/
def condStepPass1 (stack : List Bool) (d : CondDirective) : CondStepResult :=
  let top := stack.headD true
  match d with
  | .ifd cond =>
    let condResult := if top then cond else false
    ⟨(top && condResult) :: stack, false, top⟩
  | .elsed =>
    if stack.length ≤ 1 then ⟨stack, true, false⟩
    else
      match stack with
      | t :: outer :: rest => ⟨(outer && !t) :: outer :: rest, false, false⟩
      | _ => ⟨stack, true, false⟩
  | .endifd =>
    if stack.length ≤ 1 then ⟨stack, true, false⟩
    else ⟨stack.tail, false, false⟩

/-- Embeds the conditional-directive branch of
`pseudo_op_handlers.py::handle_pseudo_op_pass_2` (v2.18, lines 417-443),
which manipulates the stack exactly as the Pass-1 branch does (the only
differences in the source are error-message wording and return values). -/
def condStepPass2 (stack : List Bool) (d : CondDirective) : CondStepResult :=
  let top := stack.headD true
  match d with
  | .ifd cond =>
    let condResult := if top then cond else false
    ⟨(top && condResult) :: stack, false, top⟩
  | .elsed =>
    if stack.length ≤ 1 then ⟨stack, true, false⟩
    else
      match stack with
      | t :: outer :: rest => ⟨(outer && !t) :: outer :: rest, false, false⟩
      | _ => ⟨stack, true, false⟩
  | .endifd =>
    if stack.length ≤ 1 then ⟨stack, true, false⟩
    else ⟨stack.tail, false, false⟩

/-! ## VFD field masking (pseudo_op_handlers.py::generate_vfd_parcels) -/

/-- Python `x & mask` with `mask = 2^n - 1`, for an arbitrary (possibly
negative) integer `x`: Python bitwise AND acts on the two's-complement
representation, so the result is `x mod 2^n`, a natural number. -/
def pyAndMask (x : Int) (n : Nat) : Nat := (x % (2 ^ n : Int)).toNat

/-- Embeds the per-field masking of
`pseudo_op_handlers.py::generate_vfd_parcels` (v2.18, lines 88-96), for
a field of evaluated absolute width `n` and evaluated absolute integer
value `v`:

```
mask = (1 << field_width) - 1
if field_value < 0:
    field_value = (~abs(field_value)) & mask   # One's complement negative
else:
    field_value &= mask
```

Python `~abs(v)` is `-abs(v) - 1`. -/
def vfdFieldEmit (n : Nat) (v : Int) : Nat :=
  if v < 0 then pyAndMask (-(v.natAbs : Int) - 1) n
  else pyAndMask v n

/-- The specification's formula for a VFD field (spec §8, "VFD mask"):
for v ≥ 0 the field is `v AND (2^n − 1)`; for v < 0 it is
`(NOT |v|) AND (2^n − 1)`, the one's complement of the magnitude within
the n-bit field (bitwise complement of `|v|` masked to n bits). -/
def vfdFieldSpec (n : Nat) (v : Int) : Nat :=
  if v < 0 then (2 ^ n - 1) ^^^ (v.natAbs &&& (2 ^ n - 1))
  else v.natAbs &&& (2 ^ n - 1)

end Crass

namespace Crass

/-! ## Symbol table (symbol_table.py)

Symbol attributes are a Python dictionary; we embed it as an
association list over a fixed key type (lookup returns the first
binding; assignment replaces the existing binding).  `dict.get(k)`
is `Attrs.get`, `dict.get(k, default)` the `getD`/`getBool` wrappers,
and `dict.update(new)` is `Attrs.update`. -/

inductive AttrKey where
  | type | block | redefinable | program_name | equ_star | defined_by_loc
  | value_is_char
  deriving DecidableEq, Repr

inductive AttrVal where
  | vBool (b : Bool)
  | vType (t : RelocType)
  | vStr (s : String)
  deriving DecidableEq, Repr

abbrev Attrs := List (AttrKey × AttrVal)

def Attrs.get (a : Attrs) (k : AttrKey) : Option AttrVal :=
  (a.find? (fun kv => kv.1 = k)).map (·.2)

/-- `dict.get(k, False)` read in boolean context; every value the
source stores under the boolean keys is a `bool`. -/
def Attrs.getBool (a : Attrs) (k : AttrKey) : Bool :=
  match a.get k with
  | some (.vBool b) => b
  | _ => false

/-- Dictionary assignment `a[k] = v`: replace the binding if present,
otherwise append. -/
def Attrs.set (a : Attrs) (k : AttrKey) (v : AttrVal) : Attrs :=
  if (a.find? (fun kv => kv.1 = k)).isSome then
    a.map (fun kv => if kv.1 = k then (k, v) else kv)
  else a ++ [(k, v)]

/-- `old.update(new)`: every binding of `new` is written into `old`. -/
def Attrs.update (old new : Attrs) : Attrs :=
  new.foldl (fun acc kv => acc.set kv.1 kv.2) old

/-- One entry of `SymbolTable.symbols`: `{'value':…, 'line_num':…,
'attrs':…}`. -/
structure SymEntry where
  value : Int
  lineNum : Nat
  attrs : Attrs
  deriving DecidableEq, Repr

/-- `SymbolTable.program_name_attributes`:
`{'name':…, 'value':…, 'type':…}`. -/
structure ProgramNameAttrs where
  name : String
  value : Int
  type : RelocType
  deriving DecidableEq, Repr

/-- The parts of `symbol_table.py::SymbolTable` that `define` touches.
`symbols` is a Python dict keyed by qualified name, embedded as an
association list (lookup = first binding, assignment = replace). -/
structure SymTable where
  symbols : List (String × SymEntry)
  programNameAttributes : Option ProgramNameAttrs
  equStarSymbols : List String
  deriving DecidableEq, Repr

def SymTable.lookup? (t : SymTable) (qn : String) : Option SymEntry :=
  (t.symbols.find? (fun kv => kv.1 = qn)).map (·.2)

/-- Dictionary assignment `symbols[qn] = entry`. -/
def SymTable.store (t : SymTable) (qn : String) (e : SymEntry) : SymTable :=
  if (t.symbols.find? (fun kv => kv.1 = qn)).isSome then
    { t with symbols := t.symbols.map (fun kv => if kv.1 = qn then (qn, e) else kv) }
  else { t with symbols := t.symbols ++ [(qn, e)] }

/-- Python `str.upper()` on the ASCII symbol/qualifier names the
assembler handles, computed on the character list (the built-in
`String.toUpper` is not kernel-reducible). -/
def pyUpper (s : String) : String := ⟨s.data.map Char.toUpper⟩

/-- Embeds `symbol_table.py::SymbolTable._get_qualified_name`
(v1.34, lines 31-37). -/
def getQualifiedName (name : String) (currentQualifier : Option String) : String :=
  let name := pyUpper name
  match currentQualifier with
  | none => name
  | some q =>
    if q = "*" then name
    else if name.data.contains '$' then name
    else q ++ "$" ++ name

/-- Embeds `symbol_table.py::SymbolTable.define` (v1.34, lines 42-125).
Returns the success flag together with the updated table; an `add_error`
call in the source corresponds to returning `false`.

The redefinition logic (lines 73-108): an existing program-name entry
is never redefinable; an existing LOC-defined entry accepts only a new
LOC definition with identical value; an existing non-`SET` entry
accepts a redefinition exactly when value, `type` attribute and `block`
attribute are all identical, in which case only the attribute
dictionary is merged (the stored value is not reassigned); an existing
`SET` entry rejects a non-`SET` redefinition and accepts a `SET` one
(falling through to the store).  On every rejection the table is left
unchanged. -/
def SymTable.define (t : SymTable) (name : String) (value : Int) (lineNum : Nat)
    (attrs : Attrs) (currentQualifier : Option String) : Bool × SymTable :=
  let qualifiedName := getQualifiedName name currentQualifier
  let isSetDefinition := attrs.getBool .redefinable
  let isProgramName := attrs.getBool .program_name
  let isEquStar := attrs.getBool .equ_star
  let isLocDef := attrs.getBool .defined_by_loc
  -- redefinition checks (lines 73-108)
  let checked : Option (Bool × SymTable) :=
    match t.lookup? qualifiedName with
    | none => none
    | some existing =>
      let wasSet := existing.attrs.getBool .redefinable
      let wasProgramName := existing.attrs.getBool .program_name
      let wasLocDef := existing.attrs.getBool .defined_by_loc
      if wasProgramName then
        some (false, t)
      else if wasLocDef then
        if isLocDef ∧ existing.value = value then
          some (true, t.store qualifiedName
            { existing with attrs := existing.attrs.update attrs })
        else some (false, t)
      else if ¬ wasSet then
        if existing.value = value ∧
            existing.attrs.get .type = attrs.get .type ∧
            existing.attrs.get .block = attrs.get .block then
          some (true, t.store qualifiedName
            { existing with attrs := existing.attrs.update attrs })
        else some (false, t)
      else if wasSet ∧ ¬ isSetDefinition then
        some (false, t)
      else none -- was SET and is SET: valid redefinition, fall through
  match checked with
  | some r => r
  | none =>
    -- store the entry (lines 110-114)
    let t := t.store qualifiedName ⟨value, lineNum, attrs⟩
    -- program-name bookkeeping (lines 115-120); note the entry stays stored
    -- even when the conflicting-IDENT error path returns False
    let pnaType := match attrs.get .type with
      | some (.vType ty) => ty
      | _ => RelocType.absolute
    let newPna : ProgramNameAttrs := ⟨pyUpper name, value, pnaType⟩
    let trackEquStar (t : SymTable) : SymTable :=
      if isEquStar then { t with equStarSymbols := t.equStarSymbols ++ [qualifiedName] }
      else t
    if isProgramName then
      match t.programNameAttributes with
      | some pna =>
        if pna.name ≠ pyUpper name then (false, t)
        else (true, trackEquStar { t with programNameAttributes := some newPna })
      | none =>
        (true, trackEquStar { t with programNameAttributes := some newPna })
    else
      (true, trackEquStar t)

end Crass

namespace Crass

/-! ## Assembler state (assembler_state.py)

The fields of `AssemblerState` that the verified operations read or
write.  Location and position counters are natural numbers (the source
keeps them non-negative on all embedded paths; `advance_lc` uses
Python `//`/`%` on non-negative operands, which agree with `Nat`
division).  `block_lcs` and the Pass-2 base-address map
`assembler.block_base_addresses` are Python dicts embedded as
association lists. -/

structure AsmState where
  passNumber : Nat
  locationCounter : Nat
  positionCounter : Nat
  currentBlock : String
  lcIsAbsoluteDueToLoc : Bool
  preLocBlockName : Option String
  deferredForceUpperPending : Bool
  blockLcs : List (String × Nat)
  blockOrder : List String
  literalList : List Int
  deriving DecidableEq, Repr

def dictLookup (l : List (String × Nat)) (k : String) : Option Nat :=
  (l.find? (fun kv => kv.1 = k)).map (·.2)

def dictSet (l : List (String × Nat)) (k : String) (v : Nat) : List (String × Nat) :=
  if (l.find? (fun kv => kv.1 = k)).isSome then
    l.map (fun kv => if kv.1 = k then (k, v) else kv)
  else l ++ [(k, v)]

/-- The block whose size `advance_lc`/`force_upper` increment in
Pass 1: `pre_loc_block_name` when `lc_is_absolute_due_to_loc` is set
and `pre_loc_block_name` is non-None, else `current_block`
(`assembler_state.py` v1.26, lines 172-179 and 207-214). -/
def AsmState.blockToIncrement (s : AsmState) : String :=
  match s.preLocBlockName with
  | some pre => if s.lcIsAbsoluteDueToLoc then pre else s.currentBlock
  | none => s.currentBlock

/-- Pass-1 block-size bookkeeping: `block_lcs[blk] += words`, creating
the entry at 0 first when missing. -/
def AsmState.bumpBlockSize (s : AsmState) (words : Nat) : AsmState :=
  let blk := s.blockToIncrement
  let cur := (dictLookup s.blockLcs blk).getD 0
  { s with blockLcs := dictSet s.blockLcs blk (cur + words) }

/-- Embeds `assembler_state.py::AssemblerState.advance_lc` (v1.26,
lines 160-188). -/
def AsmState.advanceLc (s : AsmState) (bits : Nat) : AsmState :=
  if bits = 0 then s
  else
    let newPcVal := s.positionCounter + bits
    let wordsAdvanced := newPcVal / 60
    let finalPcVal := newPcVal % 60
    let s := { s with locationCounter := s.locationCounter + wordsAdvanced,
                      positionCounter := finalPcVal }
    if s.passNumber = 1 ∧ wordsAdvanced > 0 then s.bumpBlockSize wordsAdvanced
    else s

/-- Embeds `assembler_state.py::AssemblerState.force_upper` (v1.26,
lines 191-224): when PC ≠ 0 increment LC, reset PC and (in Pass 1)
bump the block size.  (The returned no-op bit count feeds only the
listing and is not modelled.) -/
def AsmState.forceUpper (s : AsmState) : AsmState :=
  if s.positionCounter ≠ 0 then
    let s := { s with locationCounter := s.locationCounter + 1,
                      positionCounter := 0 }
    if s.passNumber = 1 then s.bumpBlockSize 1 else s
  else s

/-- Embeds `assembler_state.py::handle_force_upper` (v1.26, lines
22-60) with the default `consume_deferred_flag=True`: force the word
boundary when PC ≠ 0 (in Pass 2 this also flushes the binary word,
which has no effect on the assembler state) and always clear
`deferred_force_upper_pending`. -/
def handleForceUpper (s : AsmState) : AsmState :=
  let s := if s.positionCounter ≠ 0 then s.forceUpper else s
  { s with deferredForceUpperPending := false }

/-- Embeds `assembler_state.py::AssemblerState.switch_block` (v1.26,
lines 253-305).  `baseAddrs` is `assembler.block_base_addresses`
(present on every driver-created state; a name missing from it in
Pass 2 reports an internal error and uses base 0, lines 288-291). -/
def AsmState.switchBlock (s : AsmState) (baseAddrs : List (String × Nat))
    (newBlockName : String) : AsmState :=
  if s.passNumber = 1 ∧ newBlockName = s.currentBlock ∧ ¬ s.lcIsAbsoluteDueToLoc then
    s
  else
    -- lines 268-273: clear LOC-override state and any pending deferred force
    let s := { s with lcIsAbsoluteDueToLoc := false,
                      preLocBlockName := none,
                      deferredForceUpperPending := false }
    if s.passNumber = 1 then
      let s :=
        if dictLookup s.blockLcs newBlockName = none then
          { s with blockLcs := dictSet s.blockLcs newBlockName 0,
                   blockOrder :=
                     if newBlockName ≠ "*ABS*" ∧ newBlockName ∉ s.blockOrder then
                       s.blockOrder ++ [newBlockName]
                     else s.blockOrder }
        else s
      { s with locationCounter := 0, positionCounter := 0,
               currentBlock := newBlockName }
    else if s.passNumber = 2 then
      let blockBase := (dictLookup baseAddrs newBlockName).getD 0
      { s with locationCounter := blockBase, positionCounter := 0,
               currentBlock := newBlockName }
    else s

end Crass

namespace Crass

/-! ## Deferred forced-upper dispatch (pass1_processing.py, pass2_processing.py)

Both line processors begin, after the RMT/macro-capture early returns,
by latching `lc_at_line_start_processing`, `pc_at_line_start_processing`
and `deferred_force_was_pending_at_line_start` and dispatching on the
current line's negating label (`label == '-'`) and on whether the line
is a sole `EQU *`. -/

/-- `DEFERRED_FORCE_MNEMONICS = {'JP', 'RJ', 'PS', 'XJ'}`
(`pass1_processing.py` line 31, `pass2_processing.py` line 33). -/
def deferredForceMnemonics : List String := ["JP", "RJ", "PS", "XJ"]

/-- Embeds the deferred-force handling at the top of
`pass1_processing.py::process_line_pass_1` (v2.60, lines 224-243)
together with the `EQU *` branch (lines 264-290): given the state at
line entry, whether the line's label is the negating label `-`, and
whether the line is a sole `EQU *`, returns the state after this
handling plus, when the line is an `EQU *` with a label, the value the
label is defined with (`value_for_equ_star`, line 269).

* negating label: the flag is cleared, nothing else changes;
* otherwise, not `EQU *`: the LC/PC are restored to the line-entry
  values (an identity at this point) and `handle_force_upper` runs,
  consuming the flag, before any label definition or sizing;
* otherwise (`EQU *`): the label's value is the line-entry LC when a
  force was pending (the LC of the word holding the special op), else
  `lc_for_symbol_def` (also the line-entry LC); afterwards, when a
  force was pending and the label is not negating, LC/PC are restored
  to the line-entry values and `handle_force_upper` runs. -/
def p1DeferredForceDispatch (s : AsmState) (negatingLabel isEquStar : Bool) :
    AsmState × Option Nat :=
  let lcAtLineStart := s.locationCounter
  if s.deferredForceUpperPending then
    if negatingLabel then
      let s := { s with deferredForceUpperPending := false }
      (s, if isEquStar then some s.locationCounter else none)
    else if ¬ isEquStar then
      (handleForceUpper s, none)
    else
      (handleForceUpper s, some lcAtLineStart)
  else
    (s, if isEquStar then some s.locationCounter else none)

/-- Embeds the identical deferred-force handling of
`pass2_processing.py::process_line_pass_2` (v2.58, lines 140-157) with
its `EQU *` force-after branch (lines 173-177).  In Pass 2 the `EQU *`
listing value is read from the symbol table (the Pass-1 definition), so
only the state transition is returned. -/
def p2DeferredForceDispatch (s : AsmState) (negatingLabel isEquStar : Bool) :
    AsmState :=
  if s.deferredForceUpperPending then
    if negatingLabel then { s with deferredForceUpperPending := false }
    else if ¬ isEquStar then handleForceUpper s
    else handleForceUpper s
  else s

/-- Embeds the instruction epilogue of
`pass1_processing.py::process_line_pass_1` (v2.60, lines 489-495): after
an instruction is sized, if PC ≠ 0 and the base mnemonic is one of the
deferred-force mnemonics, the pending flag is set (other mnemonics
leave it alone); at PC = 0 it is cleared. -/
def p1InstructionEpilogue (s : AsmState) (baseMnemonic : String) : AsmState :=
  if s.positionCounter ≠ 0 then
    if baseMnemonic ∈ deferredForceMnemonics then
      { s with deferredForceUpperPending := true }
    else s
  else { s with deferredForceUpperPending := false }

/-- Embeds the instruction epilogue of
`pass2_processing.py::process_line_pass_2` (v2.58, lines 375-382), which
is identical for instruction lines. -/
def p2InstructionEpilogue (s : AsmState) (baseMnemonic : String) : AsmState :=
  if s.positionCounter ≠ 0 then
    if baseMnemonic ∈ deferredForceMnemonics then
      { s with deferredForceUpperPending := true }
    else s
  else { s with deferredForceUpperPending := false }

end Crass

namespace Crass

/-! ## Pass driver fragment (pass_logic.py)

A mini driver for the source fragment the literal-pool and LC-agreement
claims need: programs whose lines are `LIT` directives (each with the
already-evaluated absolute values of its data items) and `CON`
directives (with the number of non-empty operand expressions), all in
the initial `*ABS*` block, no labels and no conditionals — on such
lines `process_line_pass_1`/`process_line_pass_2` reach the pseudo-op
handlers with no other state effect. -/

/-- A source line of the fragment. `lit vals`: a `LIT` directive whose
comma-separated data items evaluate (absolutely) to `vals`.  `con n`: a
`CON` directive with `n` non-empty operand expressions, each evaluating
to an absolute 60-bit word. -/
inductive SrcLine where
  | lit (vals : List Int)
  | con (n : Nat)
  deriving DecidableEq, Repr

/-- Embeds `symbol_table.py::SymbolTable.add_literal` (v1.34, lines
176-184) acting on `literal_list`: append the value only when it is not
already present. -/
def addLiteral (v : Int) (pool : List Int) : List Int :=
  if v ∈ pool then pool else pool ++ [v]

/-- Embeds the pre-pass `LIT` scan of `pass_logic.py::perform_pass`
(v2.13, lines 43-76): every `LIT` line's data items are speculatively
evaluated and collected into the function-local `temp_literal_pool`
dict, keyed by value (insertion order, duplicates dropped). -/
def prePassTempPool (lines : List SrcLine) : List Int :=
  lines.foldl
    (fun pool l =>
      match l with
      | .lit vals => vals.foldl (fun pool v => addLiteral v pool) pool
      | .con _ => pool)
    []

/-- The assembler state as initialised for Pass 1 by
`pass_logic.py::perform_pass` (v2.13, lines 79-113): LC := 0, PC := 0,
block `*ABS*`, and — crucially — `symbol_table.literal_list` cleared to
the empty list (lines 100-102). -/
def pass1InitialState : AsmState :=
  { passNumber := 1, locationCounter := 0, positionCounter := 0,
    currentBlock := "*ABS*", lcIsAbsoluteDueToLoc := false,
    preLocBlockName := none, deferredForceUpperPending := false,
    blockLcs := [("*ABS*", 0)], blockOrder := [], literalList := [] }

/-- Result of the Pass-1 set-up portion of `perform_pass` (v2.13, lines
43-115): the pre-pass scan computes `literal_size = len(temp_literal_pool)`
into a local variable (line 77) — retained here as
`tempLiteralPoolSize` — and then initialises the real state with an
empty literal pool; the local is never read again. -/
structure Pass1Setup where
  tempLiteralPoolSize : Nat
  state : AsmState
  deriving DecidableEq, Repr

/-- Embeds `pass_logic.py::perform_pass` Pass-1 set-up (v2.13, lines
43-115): run the pre-pass `LIT` scan, bind its size to the (unused)
local, and initialise the per-pass state — including clearing the
symbol table's literal pool. -/
def performPass1Setup (lines : List SrcLine) : Pass1Setup :=
  { tempLiteralPoolSize := (prePassTempPool lines).length,
    state := pass1InitialState }

/-- Embeds the effect of one fragment line in Pass 1
(`pass1_processing.py::process_line_pass_1` v2.60 reaching
`pseudo_op_handlers.py::handle_pseudo_op_pass_1` v2.18):

* data pre-alignment for `DATA/CON/DIS/BSS/BSSZ/LIT`
  (`pass1_processing.py` lines 434-437), `dataPreAlign`: force upper
  when PC ≠ 0;
* `LIT` (handler lines 260-272): force upper when PC ≠ 0, then
  `add_literal` each absolute value;
* `CON` (handler lines 237-247): force upper when PC ≠ 0, then
  `advance_lc` by `calculate_pseudo_op_size` = (number of non-empty
  operands) · 60 bits (v2.18, lines 830-833). -/
def dataPreAlign (s : AsmState) : AsmState :=
  if s.positionCounter ≠ 0 then handleForceUpper s else s

def pass1Line (s : AsmState) (l : SrcLine) : AsmState :=
  match l with
  | .lit vals =>
    let s := dataPreAlign s
    let s := dataPreAlign s
    vals.foldl (fun s v => { s with literalList := addLiteral v s.literalList }) s
  | .con n =>
    let s := dataPreAlign s
    let s := dataPreAlign s
    if n * 60 > 0 then s.advanceLc (n * 60) else s

/-- The state after Pass 1 has processed all fragment lines. -/
def pass1Run (lines : List SrcLine) : AsmState :=
  lines.foldl pass1Line (performPass1Setup lines).state

/-- `symbol_table.py::get_literal_block_size` (v1.34, lines 212-213)
after Pass 1: the number of unique literals collected. -/
def literalBlockSize (lines : List SrcLine) : Nat :=
  (pass1Run lines).literalList.length

/-- Embeds the block-base layout of `pass_logic.py::perform_pass`
(v2.13, lines 283-321) for the fragment: `base['*ABS*'] = 0`; named
blocks would follow at `literal_size`, cumulatively, in first-USE
order (the fragment creates none). -/
def blockBaseAddresses (lines : List SrcLine) : List (String × Nat) :=
  let litSize := literalBlockSize lines
  let bases : List (String × Nat) := [("*ABS*", 0)]
  let run := (pass1Run lines).blockOrder.foldl
    (fun (acc : List (String × Nat) × Nat) name =>
      if dictLookup acc.1 name = none then
        (acc.1 ++ [(name, acc.2)],
         acc.2 + ((dictLookup (pass1Run lines).blockLcs name).getD 0))
      else acc)
    (bases, litSize)
  run.1

/-- Embeds `assembler_state.py::AssemblerState.reset_for_pass2` (v1.26,
lines 122-158): the Pass-2 state starts with
LC := `get_literal_block_size()`, PC := 0, block `*ABS*`.  (The Pass-2
literal pre-emission in `pass_logic.py` lines 155-176 saves the LC/PC,
emits the pool at addresses 0.., and restores the saved LC/PC, so it
has no net effect on the state seen at the first source line.) -/
def pass2InitialState (lines : List SrcLine) : AsmState :=
  { passNumber := 2, locationCounter := literalBlockSize lines,
    positionCounter := 0, currentBlock := "*ABS*",
    lcIsAbsoluteDueToLoc := false, preLocBlockName := none,
    deferredForceUpperPending := false,
    blockLcs := (pass1Run lines).blockLcs,
    blockOrder := (pass1Run lines).blockOrder,
    literalList := (pass1Run lines).literalList }

/-- One iteration of the Pass-2 `DATA`/`CON` emission loop
(`pass2_processing.py` v2.58, lines 326-331) for a 60-bit word: force
upper when `PC + 60 > 60` and `PC ≠ 0`, add the word to the binary
(no state effect), `advance_lc(60)`. -/
def pass2ConStep (s : AsmState) : AsmState :=
  let s := if s.positionCounter + 60 > 60 ∧ s.positionCounter ≠ 0 then
    handleForceUpper s else s
  s.advanceLc 60

/-- Embeds the effect of one fragment line in Pass 2
(`pass2_processing.py::process_line_pass_2` v2.58 reaching
`pseudo_op_handlers.py::handle_pseudo_op_pass_2` v2.18):

* `LIT` (handler lines 730-742): listed only, no state change;
* `CON` (handler lines 551-577 then processor lines 325-331): force
  upper when PC ≠ 0, then for each of the `n` generated 60-bit words,
  force upper when PC + 60 > 60 and PC ≠ 0, and `advance_lc(60)`. -/
def pass2Line (s : AsmState) (l : SrcLine) : AsmState :=
  match l with
  | .lit _ => s
  | .con n =>
    let s := dataPreAlign s
    (List.range n).foldl (fun s _ => pass2ConStep s) s

/-- The sequence of location counters observed at line entry in Pass 1
(`pass_logic.py` v2.13 line 196: `line_start_address` is latched from
`state.location_counter` at the top of the loop, before the line is
processed). -/
def pass1EntriesAux : AsmState → List SrcLine → List Nat
  | _, [] => []
  | s, l :: rest => s.locationCounter :: pass1EntriesAux (pass1Line s l) rest

def pass1Entries (lines : List SrcLine) : List Nat :=
  pass1EntriesAux (performPass1Setup lines).state lines

/-- The sequence of location counters observed at line entry in
Pass 2 (same latch point in the shared driver loop). -/
def pass2EntriesAux : AsmState → List SrcLine → List Nat
  | _, [] => []
  | s, l :: rest => s.locationCounter :: pass2EntriesAux (pass2Line s l) rest

def pass2Entries (lines : List SrcLine) : List Nat :=
  pass2EntriesAux (pass2InitialState lines) lines

/-- All values appearing in the source's `LIT` directives. -/
def srcLitValues (lines : List SrcLine) : List Int :=
  (lines.map (fun l => match l with | .lit vals => vals | .con _ => [])).flatten

end Crass

namespace Crass

/-! ## 15/30-bit width resolution (pass1_processing.py, instruction_assembler.py)

`operand_parser.py::parse_operands` (v1.38) returns a dictionary whose
`parsed_fmt` entry is one of a fixed family of short uppercase tags;
the resolver's decision depends only on that tag and on which candidate
formats parse at all.  The embedding therefore models the parser by an
*oracle* mapping each candidate definition's format string to its parse
outcome (`none` = `OperandParseError` raised, `some pf` = success with
canonical tag `pf`); `parse_operands` is deterministic in its format
argument once the line's operand text and assembler context are fixed,
so each concrete call site is one such oracle. -/

/-- Register letters `[ABX]` of the parser's tags. -/
inductive RegL where
  | A | B | X
  deriving DecidableEq, Repr, Fintype

/-- Operator characters `+ * / -` of the parser's tags. -/
inductive OpC where
  | plus | minus | star | slash
  deriving DecidableEq, Repr, Fintype

def RegL.char : RegL → Char
  | .A => 'A' | .B => 'B' | .X => 'X'

def OpC.char : OpC → Char
  | .plus => '+' | .minus => '-' | .star => '*' | .slash => '/'

/-- The canonical `parsed_fmt` tags `operand_parser.py::parse_operands`
(v1.38) can return, one constructor per `return` site:

* `empty` — `""` (empty expected format, lines 148-153);
* `bareK` — `"K"` (empty operand with `K` in the format, lines 156-162,
  or a bare expression, lines 316-338);
* `jk` — `"JK"` (empty operand with `jk` in the format, lines 163-169,
  an integer under an `LX/AX/MX` hint, lines 303-314, or a `JK` format,
  lines 319-323);
* `regOpReg r1 o r2` — `"{r1}J{o}{r2}K"` (lines 176-185);
* `negRegOpReg r1 o r2` — `"-{r1}K{o}{r2}J"` (lines 188-197);
* `regCommaReg r1 r2` — `"{r1}J,{r2}K"` (lines 200-211);
* `regCommaK r iForm` — `"{r}I,K"` / `"{r}J,K"` (lines 213-227);
* `regOpK r minus iForm` — `"{r}I±K"` / `"{r}J±K"` (lines 230-258);
* `negXK` — `"-XK"` (lines 261-272);
* `singleReg r d` — `"A0"`…`"X7"` (lines 276-297);
* `reducedXJ` — `"XJ"` (single-register reduction, lines 279-285);
* `reducedXK` — `"XK"` (the `BJ,XK → XK` reduction, lines 286-292). -/
inductive ParsedFmt where
  | empty
  | bareK
  | jk
  | regOpReg (r1 : RegL) (o : OpC) (r2 : RegL)
  | negRegOpReg (r1 : RegL) (o : OpC) (r2 : RegL)
  | regCommaReg (r1 r2 : RegL)
  | regCommaK (r : RegL) (iForm : Bool)
  | regOpK (r : RegL) (minusOp : Bool) (iForm : Bool)
  | negXK
  | singleReg (r : RegL) (d : Fin 8)
  | reducedXJ
  | reducedXK
  deriving DecidableEq, Repr, Fintype

/-- The tag as the character list of the Python string. -/
def ParsedFmt.render : ParsedFmt → List Char
  | .empty => []
  | .bareK => ['K']
  | .jk => ['J', 'K']
  | .regOpReg r1 o r2 => [r1.char, 'J', o.char, r2.char, 'K']
  | .negRegOpReg r1 o r2 => ['-', r1.char, 'K', o.char, r2.char, 'J']
  | .regCommaReg r1 r2 => [r1.char, 'J', ',', r2.char, 'K']
  | .regCommaK r iForm => [r.char, if iForm then 'I' else 'J', ',', 'K']
  | .regOpK r minusOp iForm =>
      [r.char, if iForm then 'I' else 'J', if minusOp then '-' else '+', 'K']
  | .negXK => ['-', 'X', 'K']
  | .singleReg r d => [r.char, Char.ofNat ('0'.toNat + d.val)]
  | .reducedXJ => ['X', 'J']
  | .reducedXK => ['X', 'K']

/-- Python `s.endswith(suffix)` on the tag. -/
def tagEndsWith (s suffix : List Char) : Bool := suffix.isSuffixOf s

/-- Python `s.startswith(prefix)` on the tag. -/
def tagStartsWith (s pre : List Char) : Bool := pre.isPrefixOf s

/-- `implies_K_field_for_15bit`
(`pass1_processing.py::_estimate_instruction_width_pass1` v2.60, lines
98-102; identically `instruction_assembler.py::assemble_instruction`
v1.54, lines 104-108):

```
parsed_fmt == 'K' or
parsed_fmt.endswith((',K', '+K', '-K')) or
(parsed_fmt.startswith('-') and parsed_fmt.endswith('J')
   and not parsed_fmt.startswith('-X'))
``` -/
def impliesKField (s : List Char) : Bool :=
  s = ['K'] ||
  tagEndsWith s [',', 'K'] || tagEndsWith s ['+', 'K'] || tagEndsWith s ['-', 'K'] ||
  (tagStartsWith s ['-'] && tagEndsWith s ['J'] && !tagStartsWith s ['-', 'X'])

def isRegChar (c : Char) : Bool := c = 'A' || c = 'B' || c = 'X'
def isOpChar (c : Char) : Bool := c = '+' || c = '*' || c = '/' || c = '-'
def isDigit07 (c : Char) : Bool := '0' ≤ c && c ≤ '7'

/-- `is_typical_15bit_reg_format`
(`pass1_processing.py` v2.60, lines 103-111; identically
`instruction_assembler.py` v1.54, lines 109-117).  Each `re.fullmatch`
of the source is transcribed as the corresponding character-list
pattern:

```
re.fullmatch(r"^[ABX]J,[ABX]K$", parsed_fmt) or
re.fullmatch(r"^[ABX]J[+ * / minus][ABX]K$", parsed_fmt) or
re.fullmatch(r"^-[ABX]K[+ * / minus][ABX]J$", parsed_fmt) or
re.fullmatch(r"^[ABX][0-7]$", parsed_fmt) or
parsed_fmt == "-XK" or parsed_fmt == "JK" or
parsed_fmt == "BJ,XK" or parsed_fmt == "XJ,BK"
``` -/
def isTypical15BitRegFormat (s : List Char) : Bool :=
  (match s with
   | [a, 'J', ',', b, 'K'] => isRegChar a && isRegChar b
   | _ => false) ||
  (match s with
   | [a, 'J', o, b, 'K'] => isRegChar a && isOpChar o && isRegChar b
   | _ => false) ||
  (match s with
   | ['-', a, 'K', o, b, 'J'] => isRegChar a && isOpChar o && isRegChar b
   | _ => false) ||
  (match s with
   | [a, d] => isRegChar a && isDigit07 d
   | _ => false) ||
  s = ['-', 'X', 'K'] || s = ['J', 'K'] ||
  s = ['B', 'J', ',', 'X', 'K'] || s = ['X', 'J', ',', 'B', 'K']

/-- The claim's (and spec §4.4's) address-like-K condition on the
canonical parsed format: a bare `K`, or a format ending in `,K`, `+K`
or `-K`, and not the compact two-register `JK` form. -/
def claimAddressLikeK (s : List Char) : Bool :=
  (s = ['K'] ||
   tagEndsWith s [',', 'K'] || tagEndsWith s ['+', 'K'] || tagEndsWith s ['-', 'K']) &&
  s ≠ ['J', 'K']

/-- One entry of the instruction table for a mnemonic: width and
format-hint string (`instruction_table.py` details dictionaries,
fields `width` and `format`). -/
structure InstrDef where
  width : Nat
  fmt : List Char
  deriving DecidableEq, Repr

/-- The parse oracle: outcome of `parse_operands(operand_str, fmt, …)`
for each candidate format, with the line's operand text and assembler
context fixed. -/
abbrev ParseOracle := List Char → Option ParsedFmt

/-- The first definition in the list whose format parses, and its
canonical tag (the `for … try/except/continue … break` pattern of both
resolvers). -/
def firstParse (parse : ParseOracle) : List InstrDef → Option ParsedFmt
  | [] => none
  | d :: rest =>
    match parse d.fmt with
    | some pf => some pf
    | none => firstParse parse rest

def any30Parses (parse : ParseOracle) (defs30 : List InstrDef) : Bool :=
  defs30.any (fun d => (parse d.fmt).isSome)

/-- Embeds `pass1_processing.py::_estimate_instruction_width_pass1`
(v2.60, lines 48-163) over the parse oracle:

* split the defs by width (lines 74-76);
* try the 15-bit defs in order, keeping the first success and its
  canonical tag (lines 83-95);
* when a 15-bit parse succeeded and 30-bit defs exist (lines 97-128):
  if the tag is address-like (`implies_K` ∧ tag ≠ "JK") and not a
  typical 15-bit register format, return 30 when some 30-bit def
  parses, else 15; otherwise return 15;
* otherwise try 30-bit defs (lines 130-139), then 60-bit defs (lines
  141-150), then the remembered 15-bit success (lines 152-154), then
  the first def's width when valid (lines 156-160), else 15
  (lines 162-163). -/
def estimateInstructionWidthPass1 (parse : ParseOracle) (defs : List InstrDef) : Nat :=
  let defs15 := defs.filter (fun d => d.width = 15)
  let defs30 := defs.filter (fun d => d.width = 30)
  let defs60 := defs.filter (fun d => d.width = 60)
  match firstParse parse defs15 with
  | some pf15 =>
    if defs30 ≠ [] then
      let impliesK := impliesKField pf15.render
      let typical := isTypical15BitRegFormat pf15.render
      let isAddressLikeK := impliesK && pf15.render ≠ ['J', 'K']
      if isAddressLikeK && !typical then
        if any30Parses parse defs30 then 30 else 15
      else 15
    else
      -- no 30-bit defs: the source falls through to the 60-bit
      -- attempts before reaching the 15-bit fallback
      if defs60.any (fun d => (parse d.fmt).isSome) then 60 else 15
  | none =>
    if any30Parses parse defs30 then 30
    else if defs60.any (fun d => (parse d.fmt).isSome) then 60
    else
      match defs with
      | [] => 15
      | d0 :: _ => if d0.width = 15 ∨ d0.width = 30 ∨ d0.width = 60 then d0.width else 15

/-- Embeds the candidate-selection loop of
`instruction_assembler.py::assemble_instruction` (v1.54, lines 85-132)
over the parse oracle: walk the width-sorted definitions in order; a
successful parse is the chosen definition, except that a 15-bit
definition whose tag implies an address-like K (and is not a typical
register format) is skipped — via the raised `OperandParseError` at
line 121 — whenever the mnemonic has more than one definition and some
30-bit definition exists.  `allDefs` is the full `sorted_details` list
the skip condition consults. -/
def assembleChooseAux (parse : ParseOracle) (allDefs : List InstrDef) :
    List InstrDef → Option (InstrDef × ParsedFmt)
  | [] => none
  | d :: rest =>
    match parse d.fmt with
    | none => assembleChooseAux parse allDefs rest
    | some pf =>
      if allDefs.length > 1 ∧ d.width = 15 ∧
          (impliesKField pf.render && !isTypical15BitRegFormat pf.render) = true ∧
          allDefs.any (fun x => x.width = 30) then
        assembleChooseAux parse allDefs rest
      else some (d, pf)

/-- The chosen definition of `assemble_instruction` for a mnemonic
whose `sorted_details` list is `sortedDefs` (`sorted(details_list,
key=width)`); `none` is the `chosen_instr_def is None` operand-error
path (lines 134-145). -/
def assembleChoose (parse : ParseOracle) (sortedDefs : List InstrDef) :
    Option (InstrDef × ParsedFmt) :=
  assembleChooseAux parse sortedDefs sortedDefs

end Crass

namespace Crass

open RelocType BinOp

/-! ## Theorems settling the claims -/

/-- Auxiliary: xor with the low-`n`-bit mask complements a value below
`2^n`: `(2^n − 1) ^^^ x = 2^n − 1 − x`. -/
theorem maskXorComplement (n x : Nat) (h : x < 2 ^ n) :
    (2 ^ n - 1) ^^^ x = 2 ^ n - 1 - x := by
  induction n generalizing x with
  | zero =>
    have hx : x = 0 := by omega
    subst hx; rfl
  | succ n ih =>
    have hp : 2 ^ (n + 1) = 2 * 2 ^ n := by rw [pow_succ]; ring
    have hq : x / 2 < 2 ^ n := by omega
    have hdiv : ((2 ^ (n + 1) - 1) ^^^ x) / 2 = (2 ^ n - 1) ^^^ (x / 2) := by
      rw [Nat.xor_div_two]
      congr 1
      omega
    have hmod : ((2 ^ (n + 1) - 1) ^^^ x) % 2 = (2 ^ (n + 1) - 1 + x) % 2 :=
      Nat.xor_mod_two_eq
    have hsplit : (2 ^ (n + 1) - 1) ^^^ x
        = 2 * ((2 ^ n - 1) - x / 2) + (2 ^ (n + 1) - 1 + x) % 2 := by
      conv_lhs => rw [← Nat.div_add_mod ((2 ^ (n + 1) - 1) ^^^ x) 2]
      rw [hdiv, ih (x / 2) hq, hmod]
    rw [hsplit]
    omega

/-- C9.  VFD field masking: for every VFD field of absolute integer
width `n` with `0 < n ≤ 60` and evaluated absolute integer value `v`,
the field value emitted by `generate_vfd_parcels` equals
`v AND (2^n − 1)` when `v ≥ 0`, and the one's complement of the
magnitude within the field, `(NOT |v|) AND (2^n − 1)`, when `v < 0`. -/
theorem vfd_field_masking (n : Nat) (v : Int) (h1 : 0 < n) (h2 : n ≤ 60) :
    vfdFieldEmit n v = vfdFieldSpec n v := by
  unfold vfdFieldEmit vfdFieldSpec pyAndMask
  have hM : (0 : Int) < (2 : Int) ^ n := by positivity
  by_cases hv : v < 0
  · simp only [hv, if_true]
    have ha : 1 ≤ v.natAbs := by
      rcases Int.natAbs_pos.mpr (by omega : v ≠ 0) with h
      omega
    set a := v.natAbs with hadef
    have hcast : ((2 : Int) ^ n) = ((2 ^ n : Nat) : Int) := by push_cast; ring
    have hb0 : 0 ≤ (a : Int) % (2 : Int) ^ n := Int.emod_nonneg _ (by positivity)
    have hblt : (a : Int) % (2 : Int) ^ n < (2 : Int) ^ n := Int.emod_lt_of_pos _ hM
    have heq1 : (-(a : Int) - 1) % (2 : Int) ^ n
        = (2 : Int) ^ n - 1 - ((a : Int) % (2 : Int) ^ n) :=
      calc (-(a : Int) - 1) % (2 : Int) ^ n
          = (((2 : Int) ^ n - 1 - a) - (2 : Int) ^ n) % (2 : Int) ^ n := by
            rw [show -(a : Int) - 1 = ((2 : Int) ^ n - 1 - a) - (2 : Int) ^ n from by ring]
        _ = ((2 : Int) ^ n - 1 - a) % (2 : Int) ^ n := Int.emod_sub_cancel _ _
        _ = ((2 : Int) ^ n - 1 - (a : Int) % (2 : Int) ^ n) % (2 : Int) ^ n := by
            rw [Int.sub_emod ((2 : Int) ^ n - 1) a,
                Int.sub_emod ((2 : Int) ^ n - 1) ((a : Int) % (2 : Int) ^ n),
                Int.emod_emod_of_dvd _ dvd_rfl]
        _ = (2 : Int) ^ n - 1 - (a : Int) % (2 : Int) ^ n :=
            Int.emod_eq_of_lt (by linarith) (by linarith)
    have heq2 : (a : Int) % (2 : Int) ^ n = ((a % 2 ^ n : Nat) : Int) := by
      push_cast
      ring
    have hmasklt : a % 2 ^ n < 2 ^ n := Nat.mod_lt _ (by positivity)
    rw [heq1, heq2, Nat.and_pow_two_sub_one_eq_mod,
        maskXorComplement n (a % 2 ^ n) hmasklt]
    omega
  · simp only [hv, if_false]
    have hv' : 0 ≤ v := by omega
    have heq : v % (2 : Int) ^ n = ((v.toNat % 2 ^ n : Nat) : Int) := by
      conv_lhs => rw [← Int.toNat_of_nonneg hv']
      push_cast
      ring
    have : v.natAbs = v.toNat := by omega
    rw [heq, this, Nat.and_pow_two_sub_one_eq_mod]
    omega

/-- Witness for C9 at `n = 6`, `v = −5`: emitted field
`0o72 = (NOT 5) AND 0o77`. -/
theorem vfd_field_masking_witness :
    0 < 6 ∧ 6 ≤ 60 ∧ vfdFieldEmit 6 (-5) = vfdFieldSpec 6 (-5) ∧ vfdFieldEmit 6 (-5) = 58 :=
  ⟨by decide, by decide, vfd_field_masking 6 (-5) (by decide) (by decide), by decide⟩

/-- C10.  Division in the expression evaluator is total and silent on
zero divisors: `_apply_reloc_rules` applied to two absolute operands
with operator `/` never raises; with a zero divisor the quotient is 0
and the result stays absolute. -/
theorem division_by_zero_silent :
    (∀ v1 : Int, applyRelocRules v1 absolute .div 0 absolute
        = Except.ok (0, absolute)) ∧
    (∀ v1 v2 : Int, ∃ r, applyRelocRules v1 absolute .div v2 absolute
        = Except.ok r) := by
  constructor
  · intro v1
    rfl
  · intro v1 v2
    by_cases h : v2 = 0
    · subst h; exact ⟨(0, absolute), rfl⟩
    · refine ⟨(pyTruncDiv v1 v2, absolute), ?_⟩
      simp only [applyRelocRules, if_neg h]
      rfl

/-- C4 counterexample: subtracting a relocatable operand in block `B2`
from a relocatable operand in block `B1` — two *different* blocks —
does not produce an evaluation error: `_apply_reloc_rules` never sees
the blocks and `_evaluate_simple_expression` returns an absolute result
with no block. -/
theorem sub_relocatable_diff_blocks_no_error :
    evalSimpleBinop ⟨5, relocatable, some "B1"⟩ .sub ⟨3, relocatable, some "B2"⟩
      = Except.ok ⟨2, absolute, none⟩ := by
  rfl

/-- C4 (amended).  Applying `-` to two relocatable operands always
yields an absolute result with value `v1 − v2` and no block — whether
or not the operands' blocks agree; no error is ever raised for this
pairing. -/
theorem sub_relocatable_always_absolute (v1 v2 : Int) (b1 b2 : Option String) :
    evalSimpleBinop ⟨v1, relocatable, b1⟩ .sub ⟨v2, relocatable, b2⟩
      = Except.ok ⟨v1 - v2, absolute, none⟩ := by
  rfl

/-- C6.  Conditional-stack semantics, identically in Pass 1 and Pass 2:
`IF*` pushes `top AND condition` and evaluates the condition exactly
when the current top is true; `ELSE` replaces the top `t` by
`parent AND NOT t`; `ENDIF` pops; an `ELSE` or `ENDIF` with only the
initial element left errors and leaves the stack unchanged.  (The
stack's head is its top.) -/
theorem conditional_stack_semantics (stack : List Bool) :
    (∀ d, condStepPass2 stack d = condStepPass1 stack d) ∧
    (∀ c, condStepPass1 stack (.ifd c)
        = ⟨(stack.headD true && c) :: stack, false, stack.headD true⟩) ∧
    (∀ t parent rest, stack = t :: parent :: rest →
        condStepPass1 stack .elsed
          = ⟨(parent && !t) :: parent :: rest, false, false⟩ ∧
        condStepPass1 stack .endifd = ⟨parent :: rest, false, false⟩) ∧
    (stack.length ≤ 1 →
        condStepPass1 stack .elsed = ⟨stack, true, false⟩ ∧
        condStepPass1 stack .endifd = ⟨stack, true, false⟩) := by
  refine ⟨?_, ?_, ?_, ?_⟩
  · intro d; cases d <;> rfl
  · intro c
    simp only [condStepPass1]
    congr 1
    cases h : stack.headD true <;> simp
  · rintro t parent rest rfl
    constructor
    · simp [condStepPass1]
    · simp [condStepPass1]
  · intro hlen
    constructor
    · simp [condStepPass1, hlen]
    · simp [condStepPass1, hlen]

/-- Witness for C6: an `ELSE` atop `[true, true]` rewrites the top to
`false`; an `ELSE` on the initial one-element stack errors and leaves
it unchanged. -/
theorem conditional_stack_semantics_witness :
    condStepPass1 [true, true] .elsed = ⟨[false, true], false, false⟩ ∧
    condStepPass1 [true] .elsed = ⟨[true], true, false⟩ :=
  ⟨((conditional_stack_semantics [true, true]).2.2.1 true true [] rfl).1,
   ((conditional_stack_semantics [true]).2.2.2 (by decide)).1⟩

end Crass

namespace Crass

/-- The attribute dictionary `handle_pseudo_op_pass_1` builds for an
`IDENT` program-name definition (`pseudo_op_handlers.py` v2.18, line
172): `{'type': 'absolute', 'redefinable': False, 'block': '*ABS*',
'program_name': True}`. -/
def identAttrs : Attrs :=
  [(.type, .vType .absolute), (.redefinable, .vBool false),
   (.block, .vStr "*ABS*"), (.program_name, .vBool true)]

/-- C5 counterexample: `PROG` is defined by `IDENT` (value 0, type
absolute, block `*ABS*`, not redefinable — in particular not created by
`SET`), then defined a second time with the *identical* value, type and
block.  `define` rejects it (the `was_program_name` branch,
`symbol_table.py` lines 81-84) instead of succeeding as the claim
states; the stored entry is left unchanged. -/
theorem symbol_idempotence_counterexample :
    (((SymTable.define ⟨[], none, []⟩ "PROG" 0 1 identAttrs none).2.define
        "PROG" 0 2 identAttrs none).1 = false) ∧
    ((SymTable.define ⟨[], none, []⟩ "PROG" 0 1 identAttrs none).2.define
        "PROG" 0 2 identAttrs none).2.lookup? "PROG"
      = some ⟨0, 1, identAttrs⟩ := by
  constructor
  · decide
  · decide

/-- C5 (amended).  For an existing entry that carries neither the
program-name (IDENT) flag nor the defined-by-LOC flag and is not
redefinable (not created by SET): a second definition succeeds exactly
when the new value, `type` attribute and `block` attribute all equal
the stored ones, and then only merges the attribute dictionary, leaving
the stored value (and definition line) unchanged; a second definition
differing in value, type or block is rejected with an error and leaves
the table entirely unchanged.  (IDENT-defined symbols are *always*
rejected, and LOC-defined symbols accept only another LOC definition
with the same value — the corrections the counterexample forces.) -/
theorem symbol_idempotence_amended (t : SymTable) (name : String)
    (qual : Option String) (e : SymEntry) (v : Int) (ln : Nat) (attrs : Attrs)
    (hfound : t.lookup? (getQualifiedName name qual) = some e)
    (hnotpn : e.attrs.getBool .program_name = false)
    (hnotloc : e.attrs.getBool .defined_by_loc = false)
    (hnotset : e.attrs.getBool .redefinable = false) :
    (e.value = v → e.attrs.get .type = attrs.get .type →
        e.attrs.get .block = attrs.get .block →
        t.define name v ln attrs qual
          = (true, t.store (getQualifiedName name qual)
              ⟨e.value, e.lineNum, e.attrs.update attrs⟩)) ∧
    (¬ (e.value = v ∧ e.attrs.get .type = attrs.get .type ∧
          e.attrs.get .block = attrs.get .block) →
        t.define name v ln attrs qual = (false, t)) := by
  constructor
  · intro hv hty hbl
    simp only [SymTable.define, hfound, hnotpn, hnotloc, hnotset]
    simp [hv, hty, hbl]
  · intro hdiff
    simp only [SymTable.define, hfound, hnotpn, hnotloc, hnotset]
    simp only [Bool.false_eq_true, if_false, not_false_eq_true, if_true]
    rw [if_neg hdiff]

/-- Witness for C5's amended theorem: a plain `EQU`-style symbol
(absolute, block `*ABS*`, not redefinable) redefined once with the same
value/type/block (accepted, value unchanged) and once with a different
value (rejected, table unchanged). -/
theorem symbol_idempotence_amended_witness :
    (SymTable.define ⟨[("S", ⟨7, 1, [(.type, .vType .absolute), (.redefinable, .vBool false), (.block, .vStr "*ABS*")]⟩)], none, []⟩
        "S" 7 2 [(.type, .vType .absolute), (.redefinable, .vBool false), (.block, .vStr "*ABS*")] none).1 = true ∧
    (SymTable.define ⟨[("S", ⟨7, 1, [(.type, .vType .absolute), (.redefinable, .vBool false), (.block, .vStr "*ABS*")]⟩)], none, []⟩
        "S" 8 2 [(.type, .vType .absolute), (.redefinable, .vBool false), (.block, .vStr "*ABS*")] none).1 = false := by
  constructor
  · have h := (symbol_idempotence_amended
      ⟨[("S", ⟨7, 1, [(.type, .vType .absolute), (.redefinable, .vBool false), (.block, .vStr "*ABS*")]⟩)], none, []⟩
      "S" none ⟨7, 1, [(.type, .vType .absolute), (.redefinable, .vBool false), (.block, .vStr "*ABS*")]⟩
      7 2 [(.type, .vType .absolute), (.redefinable, .vBool false), (.block, .vStr "*ABS*")]
      (by decide) (by decide) (by decide) (by decide)).1 (by decide) (by decide) (by decide)
    rw [h]
  · have h := (symbol_idempotence_amended
      ⟨[("S", ⟨7, 1, [(.type, .vType .absolute), (.redefinable, .vBool false), (.block, .vStr "*ABS*")]⟩)], none, []⟩
      "S" none ⟨7, 1, [(.type, .vType .absolute), (.redefinable, .vBool false), (.block, .vStr "*ABS*")]⟩
      8 2 [(.type, .vType .absolute), (.redefinable, .vBool false), (.block, .vStr "*ABS*")]
      (by decide) (by decide) (by decide) (by decide)).2 (by decide)
    rw [h]

end Crass

namespace Crass

/-- A Pass-1 state mid-way through block `B`: LC 3, PC 5, a deferred
force pending, no LOC override. -/
def switchBlockCounterexampleState : AsmState :=
  { passNumber := 1, locationCounter := 3, positionCounter := 5,
    currentBlock := "B", lcIsAbsoluteDueToLoc := false,
    preLocBlockName := none, deferredForceUpperPending := true,
    blockLcs := [("*ABS*", 0), ("B", 3)], blockOrder := ["B"],
    literalList := [] }

/-- C8 counterexample: a Pass-1 `switch_block` to the *current* block
with `lc_is_absolute_due_to_loc` clear takes the early return
(`assembler_state.py` v1.26, lines 254-255) and changes nothing: the
pending deferred-force flag stays set and LC/PC keep their old non-zero
values, contradicting the claim that *every* invocation clears both
flags and zeroes the Pass-1 counters. -/
theorem switch_block_counterexample :
    switchBlockCounterexampleState.switchBlock [("*ABS*", 0)] "B"
        = switchBlockCounterexampleState ∧
    (switchBlockCounterexampleState.switchBlock [("*ABS*", 0)] "B").deferredForceUpperPending
        = true ∧
    (switchBlockCounterexampleState.switchBlock [("*ABS*", 0)] "B").locationCounter = 3 ∧
    (switchBlockCounterexampleState.switchBlock [("*ABS*", 0)] "B").positionCounter = 5 := by
  refine ⟨?_, by decide, by decide, by decide⟩
  decide

/-- C8 (amended).  `switch_block` clears `lc_is_absolute_due_to_loc`
and `deferred_force_upper_pending` and establishes the claimed
counters in every invocation *except* the Pass-1 early return — when
the target block is the current block and `lc_is_absolute_due_to_loc`
is clear, the call returns immediately with the whole state (both
flags included) unchanged.  In the non-early-return invocations:
Pass 1 sets LC = PC = 0 in the (possibly newly created) block; Pass 2
sets LC to the block's base address (0, with an internal error, when
the base map lacks the block) and PC = 0. -/
theorem switch_block_amended (s : AsmState) (baseAddrs : List (String × Nat))
    (name : String)
    (hnoop : ¬ (s.passNumber = 1 ∧ name = s.currentBlock ∧ ¬ s.lcIsAbsoluteDueToLoc)) :
    (s.passNumber = 1 →
        s.switchBlock baseAddrs name
          = { s with lcIsAbsoluteDueToLoc := false, preLocBlockName := none,
                     deferredForceUpperPending := false,
                     locationCounter := 0, positionCounter := 0,
                     currentBlock := name,
                     blockLcs :=
                       if dictLookup s.blockLcs name = none then
                         dictSet s.blockLcs name 0
                       else s.blockLcs,
                     blockOrder :=
                       if dictLookup s.blockLcs name = none then
                         (if name ≠ "*ABS*" ∧ name ∉ s.blockOrder then
                           s.blockOrder ++ [name]
                         else s.blockOrder)
                       else s.blockOrder }) ∧
    (s.passNumber = 2 →
        s.switchBlock baseAddrs name
          = { s with lcIsAbsoluteDueToLoc := false, preLocBlockName := none,
                     deferredForceUpperPending := false,
                     locationCounter := (dictLookup baseAddrs name).getD 0,
                     positionCounter := 0, currentBlock := name }) := by
  constructor
  · intro h1
    rw [AsmState.switchBlock, if_neg hnoop]
    simp only [h1, if_pos rfl]
    by_cases hmem : dictLookup s.blockLcs name = none
    · rw [if_pos hmem]
      simp [hmem]
    · rw [if_neg hmem]
      simp [hmem]
  · intro h2
    have h1 : s.passNumber ≠ 1 := by omega
    rw [AsmState.switchBlock, if_neg hnoop]
    simp only [h2]
    norm_num

/-- Witness for C8's amended theorem: switching from `*ABS*` to a new
block `B` in Pass 1 zeroes the counters, clears both flags, creates
the block and appends it to the order. -/
theorem switch_block_amended_witness :
    ({ passNumber := 1, locationCounter := 4, positionCounter := 30,
       currentBlock := "*ABS*", lcIsAbsoluteDueToLoc := true,
       preLocBlockName := some "*ABS*", deferredForceUpperPending := true,
       blockLcs := [("*ABS*", 4)], blockOrder := [],
       literalList := [] } : AsmState).switchBlock [] "B"
      = { passNumber := 1, locationCounter := 0, positionCounter := 0,
          currentBlock := "B", lcIsAbsoluteDueToLoc := false,
          preLocBlockName := none, deferredForceUpperPending := false,
          blockLcs := [("*ABS*", 4), ("B", 0)], blockOrder := ["B"],
          literalList := [] } := by
  have h := (switch_block_amended
    { passNumber := 1, locationCounter := 4, positionCounter := 30,
      currentBlock := "*ABS*", lcIsAbsoluteDueToLoc := true,
      preLocBlockName := some "*ABS*", deferredForceUpperPending := true,
      blockLcs := [("*ABS*", 4)], blockOrder := [],
      literalList := [] } [] "B" (by simp)).1 rfl
  rw [h]
  decide

end Crass

namespace Crass

/-- C1.  The deferred forced-upper rule, in both passes, composed over
the two steps of the claim.

Start from any state with the pending flag clear — which is what the
line-entry dispatch always leaves behind — and PC ≠ 0.  Part (a): a
`JP`/`RJ`/`PS`/`XJ` instruction's epilogue turns the pending flag on,
changing nothing else of the state, in Pass 1 and Pass 2 alike.  Part
(b): entering the next line in that post-epilogue state, exactly one
of three outcomes occurs, identically in both passes: a negating `-`
label clears the flag with LC and PC (and all other state) untouched —
restoring exactly the pre-epilogue state; an `EQU *` line defines its
label with the *pre-force* LC — the LC of the word containing the
special op — and the force runs afterwards (LC+1, PC := 0, flag
consumed); any other line runs the force first (LC+1, PC := 0, flag
consumed) before any label definition or content. -/
theorem deferred_force_upper_rule (s : AsmState) (base : String)
    (hflag : s.deferredForceUpperPending = false)
    (hpc : s.positionCounter ≠ 0)
    (hbase : base ∈ deferredForceMnemonics) :
    -- (a) the special mnemonics set the flag when PC ≠ 0 …
    (p1InstructionEpilogue s base).deferredForceUpperPending = true ∧
    (p2InstructionEpilogue s base).deferredForceUpperPending = true ∧
    -- … and change nothing else of the state
    p1InstructionEpilogue s base = { s with deferredForceUpperPending := true } ∧
    p2InstructionEpilogue s base = { s with deferredForceUpperPending := true } ∧
    -- (b) Pass 1 dispatch at the next line, on the epilogue's output:
    -- negating label — flag cleared, everything else untouched
    (∀ equ, (p1DeferredForceDispatch (p1InstructionEpilogue s base) true equ).1 = s) ∧
    -- EQU * — label value is the pre-force LC, then the force runs
    ((p1DeferredForceDispatch (p1InstructionEpilogue s base) false true).2
        = some s.locationCounter ∧
     (p1DeferredForceDispatch (p1InstructionEpilogue s base) false true).1.locationCounter
        = s.locationCounter + 1 ∧
     (p1DeferredForceDispatch (p1InstructionEpilogue s base) false true).1.positionCounter
        = 0 ∧
     (p1DeferredForceDispatch (p1InstructionEpilogue s base)
        false true).1.deferredForceUpperPending = false) ∧
    -- any other line — force before label/content, no EQU * value
    ((p1DeferredForceDispatch (p1InstructionEpilogue s base) false false).2 = none ∧
     (p1DeferredForceDispatch (p1InstructionEpilogue s base) false false).1.locationCounter
        = s.locationCounter + 1 ∧
     (p1DeferredForceDispatch (p1InstructionEpilogue s base) false false).1.positionCounter
        = 0 ∧
     (p1DeferredForceDispatch (p1InstructionEpilogue s base)
        false false).1.deferredForceUpperPending = false) ∧
    -- Pass 2 dispatch: the same three outcomes on the state
    (∀ equ, p2DeferredForceDispatch (p2InstructionEpilogue s base) true equ = s) ∧
    (∀ equ,
      (p2DeferredForceDispatch (p2InstructionEpilogue s base) false equ).locationCounter
        = s.locationCounter + 1 ∧
      (p2DeferredForceDispatch (p2InstructionEpilogue s base) false equ).positionCounter
        = 0 ∧
      (p2DeferredForceDispatch (p2InstructionEpilogue s base)
        false equ).deferredForceUpperPending = false) := by
  have hE1 : p1InstructionEpilogue s base = { s with deferredForceUpperPending := true } := by
    simp [p1InstructionEpilogue, hpc, hbase]
  have hE2 : p2InstructionEpilogue s base = { s with deferredForceUpperPending := true } := by
    simp [p2InstructionEpilogue, hpc, hbase]
  have hs : { s with deferredForceUpperPending := false } = s := by
    obtain ⟨pn, lc, pc, cb, la, plb, dfp, blcs, bord, ll⟩ := s
    cases dfp
    · rfl
    · cases hflag
  rw [hE1, hE2]
  refine ⟨rfl, rfl, rfl, rfl, ?_, ?_, ?_, ?_, ?_⟩
  · intro equ
    simp [p1DeferredForceDispatch, hs]
  · refine ⟨?_, ?_, ?_, ?_⟩ <;>
      by_cases hp : s.passNumber = 1 <;>
      simp [p1DeferredForceDispatch, handleForceUpper, AsmState.forceUpper,
        hpc, AsmState.bumpBlockSize, hp]
  · refine ⟨?_, ?_, ?_, ?_⟩ <;>
      by_cases hp : s.passNumber = 1 <;>
      simp [p1DeferredForceDispatch, handleForceUpper, AsmState.forceUpper,
        hpc, AsmState.bumpBlockSize, hp]
  · intro equ
    simp [p2DeferredForceDispatch, hs]
  · intro equ
    refine ⟨?_, ?_, ?_⟩ <;>
      by_cases hequ : equ = true <;>
      by_cases hp : s.passNumber = 1 <;>
      simp [p2DeferredForceDispatch, hequ, handleForceUpper,
        AsmState.forceUpper, hpc, AsmState.bumpBlockSize, hp]

/-- Witness for C1: a Pass-1 state at LC 10, PC 30 with the flag
clear, as at the point `RJ SUB` in the upper half of word 10 has just
been sized and its epilogue runs.  The epilogue sets the flag, and an
`EQU *` next line is then valued at the pre-force LC 10. -/
theorem deferred_force_upper_rule_witness :
    (p1InstructionEpilogue
        { passNumber := 1, locationCounter := 10, positionCounter := 30,
          currentBlock := "*ABS*", lcIsAbsoluteDueToLoc := false,
          preLocBlockName := none, deferredForceUpperPending := false,
          blockLcs := [("*ABS*", 10)], blockOrder := [], literalList := [] }
        "RJ").deferredForceUpperPending = true ∧
    (p1DeferredForceDispatch
        (p1InstructionEpilogue
          { passNumber := 1, locationCounter := 10, positionCounter := 30,
            currentBlock := "*ABS*", lcIsAbsoluteDueToLoc := false,
            preLocBlockName := none, deferredForceUpperPending := false,
            blockLcs := [("*ABS*", 10)], blockOrder := [], literalList := [] }
          "RJ")
        false true).2 = some 10 := by
  have h := deferred_force_upper_rule
    { passNumber := 1, locationCounter := 10, positionCounter := 30,
      currentBlock := "*ABS*", lcIsAbsoluteDueToLoc := false,
      preLocBlockName := none, deferredForceUpperPending := false,
      blockLcs := [("*ABS*", 10)], blockOrder := [], literalList := [] }
    "RJ" rfl (by decide) (by decide)
  exact ⟨h.1, h.2.2.2.2.2.1.1⟩

end Crass



namespace Crass

theorem advanceLc_words (s : AsmState) (n : Nat) (hpc : s.positionCounter = 0)
    (hn : 0 < n) :
    (s.advanceLc (n * 60)).positionCounter = 0 ∧
    (s.advanceLc (n * 60)).locationCounter = s.locationCounter + n ∧
    (s.advanceLc (n * 60)).literalList = s.literalList ∧
    (s.advanceLc (n * 60)).blockOrder = s.blockOrder := by
  have hbits : n * 60 ≠ 0 := by omega
  have hdiv : (s.positionCounter + n * 60) / 60 = n := by omega
  have hmod : (s.positionCounter + n * 60) % 60 = 0 := by omega
  unfold AsmState.advanceLc
  rw [if_neg hbits]
  refine ⟨?_, ?_, ?_, ?_⟩ <;>
    by_cases hp : s.passNumber = 1 <;>
    simp [hp, hdiv, hmod, hn, AsmState.bumpBlockSize]

theorem advanceLc_sixty (s : AsmState) (hpc : s.positionCounter = 0) :
    (s.advanceLc 60).positionCounter = 0 ∧
    (s.advanceLc 60).locationCounter = s.locationCounter + 1 := by
  have h := advanceLc_words s 1 hpc (by omega)
  rw [one_mul] at h
  exact ⟨h.1, h.2.1⟩

theorem advanceLc_blockOrder (s : AsmState) (bits : Nat) :
    (s.advanceLc bits).blockOrder = s.blockOrder := by
  unfold AsmState.advanceLc
  by_cases hbits : bits = 0
  · simp [hbits]
  · rw [if_neg hbits]
    by_cases hp : s.passNumber = 1 <;>
      by_cases hw : 0 < (s.positionCounter + bits) / 60 <;>
      simp [hp, hw, AsmState.bumpBlockSize]

theorem advanceLc_literalList (s : AsmState) (bits : Nat) :
    (s.advanceLc bits).literalList = s.literalList := by
  unfold AsmState.advanceLc
  by_cases hbits : bits = 0
  · simp [hbits]
  · rw [if_neg hbits]
    by_cases hp : s.passNumber = 1 <;>
      by_cases hw : 0 < (s.positionCounter + bits) / 60 <;>
      simp [hp, hw, AsmState.bumpBlockSize]

theorem forceUpper_blockOrder (s : AsmState) :
    s.forceUpper.blockOrder = s.blockOrder := by
  unfold AsmState.forceUpper
  by_cases h : s.positionCounter ≠ 0
  · rw [if_pos h]
    by_cases hp : s.passNumber = 1 <;> simp [hp, AsmState.bumpBlockSize]
  · rw [if_neg h]

theorem forceUpper_literalList (s : AsmState) :
    s.forceUpper.literalList = s.literalList := by
  unfold AsmState.forceUpper
  by_cases h : s.positionCounter ≠ 0
  · rw [if_pos h]
    by_cases hp : s.passNumber = 1 <;> simp [hp, AsmState.bumpBlockSize]
  · rw [if_neg h]

theorem handleForceUpper_blockOrder (s : AsmState) :
    (handleForceUpper s).blockOrder = s.blockOrder := by
  unfold handleForceUpper
  by_cases h : s.positionCounter ≠ 0 <;> simp [h, forceUpper_blockOrder]

theorem handleForceUpper_literalList (s : AsmState) :
    (handleForceUpper s).literalList = s.literalList := by
  unfold handleForceUpper
  by_cases h : s.positionCounter ≠ 0 <;> simp [h, forceUpper_literalList]

theorem dataPreAlign_blockOrder (s : AsmState) :
    (dataPreAlign s).blockOrder = s.blockOrder := by
  unfold dataPreAlign
  by_cases h : s.positionCounter ≠ 0 <;> simp [h, handleForceUpper_blockOrder]

theorem dataPreAlign_literalList (s : AsmState) :
    (dataPreAlign s).literalList = s.literalList := by
  unfold dataPreAlign
  by_cases h : s.positionCounter ≠ 0 <;> simp [h, handleForceUpper_literalList]

theorem dataPreAlign_pc0 (s : AsmState) (h : s.positionCounter = 0) :
    dataPreAlign s = s := by
  simp [dataPreAlign, h]

theorem litFold_state (vals : List Int) (s : AsmState) :
    vals.foldl (fun s v => { s with literalList := addLiteral v s.literalList }) s
      = { s with literalList :=
            vals.foldl (fun pool v => addLiteral v pool) s.literalList } := by
  induction vals generalizing s with
  | nil => rfl
  | cons v rest ih => simp [List.foldl_cons, ih]

theorem pass1Line_blockOrder (s : AsmState) (l : SrcLine) :
    (pass1Line s l).blockOrder = s.blockOrder := by
  cases l with
  | lit vals =>
    simp [pass1Line, litFold_state, dataPreAlign_blockOrder]
  | con n =>
    simp only [pass1Line]
    by_cases hn : n * 60 > 0 <;>
      simp [hn, advanceLc_blockOrder, dataPreAlign_blockOrder]

theorem pass1Line_literalList (s : AsmState) (l : SrcLine) :
    (pass1Line s l).literalList
      = match l with
        | .lit vals => vals.foldl (fun pool v => addLiteral v pool) s.literalList
        | .con _ => s.literalList := by
  cases l with
  | lit vals =>
    simp [pass1Line, litFold_state, dataPreAlign_literalList]
  | con n =>
    simp only [pass1Line]
    by_cases hn : n * 60 > 0 <;>
      simp [hn, advanceLc_literalList, dataPreAlign_literalList]

/-- Words a fragment line occupies: a `CON` with `n` operands takes `n`
words; a `LIT` takes none at its own location. -/
def lineWords : SrcLine → Nat
  | .lit _ => 0
  | .con n => n

theorem pass1Line_spec (s : AsmState) (l : SrcLine) (hpc : s.positionCounter = 0) :
    (pass1Line s l).positionCounter = 0 ∧
    (pass1Line s l).locationCounter = s.locationCounter + lineWords l := by
  cases l with
  | lit vals =>
    simp only [pass1Line, dataPreAlign_pc0 s hpc, litFold_state]
    simp [lineWords, hpc]
  | con n =>
    simp only [pass1Line, dataPreAlign_pc0 s hpc]
    by_cases hn : n * 60 > 0
    · rw [if_pos hn]
      have h := advanceLc_words s n hpc (by omega)
      simp [h.1, h.2.1, lineWords]
    · have hn0 : n = 0 := by omega
      subst hn0
      simp [lineWords, hpc]

theorem pass2ConStep_spec (s : AsmState) (hpc : s.positionCounter = 0) :
    (pass2ConStep s).positionCounter = 0 ∧
    (pass2ConStep s).locationCounter = s.locationCounter + 1 := by
  unfold pass2ConStep
  rw [if_neg (by simp [hpc])]
  exact advanceLc_sixty s hpc

theorem pass2ConFold_spec (n : Nat) :
    ∀ s : AsmState, s.positionCounter = 0 →
      ((List.range n).foldl (fun s _ => pass2ConStep s) s).positionCounter = 0 ∧
      ((List.range n).foldl (fun s _ => pass2ConStep s) s).locationCounter
        = s.locationCounter + n := by
  induction n with
  | zero => intro s hpc; simp [hpc]
  | succ n ih =>
    intro s hpc
    rw [List.range_succ, List.foldl_append]
    obtain ⟨h1, h2⟩ := ih s hpc
    simp only [List.foldl_cons, List.foldl_nil]
    obtain ⟨p1, p2⟩ := pass2ConStep_spec _ h1
    exact ⟨p1, by rw [p2, h2]; omega⟩

theorem pass2Line_spec (s : AsmState) (l : SrcLine) (hpc : s.positionCounter = 0) :
    (pass2Line s l).positionCounter = 0 ∧
    (pass2Line s l).locationCounter = s.locationCounter + lineWords l := by
  cases l with
  | lit vals => simp [pass2Line, lineWords, hpc]
  | con n =>
    simp only [pass2Line, dataPreAlign_pc0 s hpc]
    obtain ⟨ha, hb⟩ := pass2ConFold_spec n s hpc
    exact ⟨ha, by simp [lineWords, hb]⟩

theorem entries_shift (lines : List SrcLine) :
    ∀ (s1 s2 : AsmState) (d : Nat), s1.positionCounter = 0 →
      s2.positionCounter = 0 →
      s2.locationCounter = s1.locationCounter + d →
      pass2EntriesAux s2 lines = (pass1EntriesAux s1 lines).map (· + d) := by
  induction lines with
  | nil => intro s1 s2 d _ _ _; rfl
  | cons l rest ih =>
    intro s1 s2 d h1 h2 hd
    obtain ⟨h1p, h1l⟩ := pass1Line_spec s1 l h1
    obtain ⟨h2p, h2l⟩ := pass2Line_spec s2 l h2
    simp only [pass1EntriesAux, pass2EntriesAux, List.map_cons]
    refine List.cons_eq_cons.mpr ⟨hd, ih (pass1Line s1 l) (pass2Line s2 l) d h1p h2p ?_⟩
    rw [h2l, h1l, hd]
    omega

theorem pass1Run_blockOrder (lines : List SrcLine) :
    (pass1Run lines).blockOrder = [] := by
  unfold pass1Run
  have h : ∀ (ls : List SrcLine) (s : AsmState),
      (ls.foldl pass1Line s).blockOrder = s.blockOrder := by
    intro ls
    induction ls with
    | nil => intro s; rfl
    | cons l rest ih => intro s; rw [List.foldl_cons, ih, pass1Line_blockOrder]
  rw [h]
  rfl

end Crass

namespace Crass

theorem blockBase_abs (lines : List SrcLine) :
    dictLookup (blockBaseAddresses lines) "*ABS*" = some 0 := by
  unfold blockBaseAddresses
  rw [pass1Run_blockOrder]
  rfl

end Crass

namespace Crass

/-- C2 (amended).  For a program of `LIT` and `CON` directives
assembled entirely in the initial `*ABS*` block — no `USE`/`ABS`
block switch ever occurs — every line's Pass-2 entry LC equals its
Pass-1 entry LC plus the literal-pool size, while the layout step
fixes the `*ABS*` base at 0; in such a program the claimed equality
`Pass-2 LC = Pass-1 LC + base` therefore holds whenever the literal
pool is empty.  (The offset law is confined to this switch-free
fragment: a `USE`/`ABS` switch back into `*ABS*` resets the Pass-2 LC
to the base address, which can restore the equality mid-program even
with a non-empty pool.) -/
theorem two_pass_lc_agreement_amended (lines : List SrcLine) :
    pass2Entries lines = (pass1Entries lines).map (· + literalBlockSize lines) ∧
    dictLookup (blockBaseAddresses lines) "*ABS*" = some 0 ∧
    (literalBlockSize lines = 0 →
        pass2Entries lines
          = (pass1Entries lines).map
              (· + (dictLookup (blockBaseAddresses lines) "*ABS*").getD 0)) := by
  have hshift := entries_shift lines (performPass1Setup lines).state
    (pass2InitialState lines) (literalBlockSize lines) rfl rfl
    (by simp [pass2InitialState, performPass1Setup, pass1InitialState])
  refine ⟨hshift, blockBase_abs lines, ?_⟩
  intro h0
  have h' : pass2Entries lines = (pass1Entries lines).map (· + literalBlockSize lines) :=
    hshift
  rw [blockBase_abs lines, h', h0]
  simp

/-- The two-line program `LIT 5` / `CON 1` used to refute the claims
about the literal pool and the two-pass LC agreement. -/
def litConExample : List SrcLine := [.lit [5], .con 1]

/-- C2 counterexample: on the program `LIT 5` / `CON 1` the Pass-1
entry LCs are `[0, 0]` and, the literal pool having size 1, the Pass-2
entry LCs are `[1, 1]`; with `base['*ABS*'] = 0` the claimed equality
`Pass-1 LC + base = Pass-2 LC` fails on every line (neither line is
conditional-skipped: the conditional stack never leaves its initial
`[True]`). -/
theorem two_pass_lc_agreement_counterexample :
    pass1Entries litConExample = [0, 0] ∧
    pass2Entries litConExample = [1, 1] ∧
    (pass1Entries litConExample).map
        (· + (dictLookup (blockBaseAddresses litConExample) "*ABS*").getD 0)
      ≠ pass2Entries litConExample := by
  refine ⟨by decide, by decide, by decide⟩

/-- Witness for C2's amended theorem: at the example program
`[1, 1] = [0, 0].map (· + 1)`, and on the literal-free program
`CON 1` (pool size 0) the entries agree outright. -/
theorem two_pass_lc_agreement_amended_witness :
    (pass2Entries litConExample
      = (pass1Entries litConExample).map (· + literalBlockSize litConExample)) ∧
    literalBlockSize litConExample = 1 ∧
    pass2Entries [SrcLine.con 1]
      = (pass1Entries [SrcLine.con 1]).map
          (· + (dictLookup (blockBaseAddresses [SrcLine.con 1]) "*ABS*").getD 0) :=
  ⟨(two_pass_lc_agreement_amended litConExample).1, by decide,
   (two_pass_lc_agreement_amended [SrcLine.con 1]).2.2 (by decide)⟩

theorem addLiteral_self (v : Int) (pool : List Int) : v ∈ addLiteral v pool := by
  unfold addLiteral
  by_cases h : v ∈ pool <;> simp [h]

theorem addLiteral_mono {w : Int} (v : Int) (pool : List Int) (h : w ∈ pool) :
    w ∈ addLiteral v pool := by
  unfold addLiteral
  by_cases hv : v ∈ pool <;> simp [hv, h]

theorem litPoolFold_mem (vals : List Int) :
    ∀ pool : List Int,
      (∀ w ∈ pool, w ∈ vals.foldl (fun p v => addLiteral v p) pool) ∧
      (∀ v ∈ vals, v ∈ vals.foldl (fun p v => addLiteral v p) pool) := by
  induction vals with
  | nil => intro pool; simp
  | cons a rest ih =>
    intro pool
    rw [List.foldl_cons]
    refine ⟨?_, ?_⟩
    · intro w hw
      exact (ih (addLiteral a pool)).1 w (addLiteral_mono a pool hw)
    · intro v hv
      rcases List.mem_cons.mp hv with rfl | hv'
      · exact (ih (addLiteral v pool)).1 v (addLiteral_self v pool)
      · exact (ih (addLiteral a pool)).2 v hv'

theorem pass1_literal_complete (lines : List SrcLine) :
    ∀ s : AsmState,
      (∀ w ∈ s.literalList, w ∈ (lines.foldl pass1Line s).literalList) ∧
      (∀ v ∈ srcLitValues lines, v ∈ (lines.foldl pass1Line s).literalList) := by
  induction lines with
  | nil => intro s; simp [srcLitValues]
  | cons l rest ih =>
    intro s
    rw [List.foldl_cons]
    have hmono : ∀ w ∈ s.literalList, w ∈ (pass1Line s l).literalList := by
      intro w hw
      rw [pass1Line_literalList]
      cases l with
      | lit vals => exact (litPoolFold_mem vals s.literalList).1 w hw
      | con n => exact hw
    refine ⟨?_, ?_⟩
    · intro w hw
      exact (ih (pass1Line s l)).1 w (hmono w hw)
    · intro v hv
      cases l with
      | lit vals =>
        have hv2 : v ∈ vals ∨ v ∈ srcLitValues rest := by
          simpa [srcLitValues] using hv
        rcases hv2 with hhead | htail
        · have hv' : v ∈ (pass1Line s (.lit vals)).literalList := by
            rw [pass1Line_literalList]
            exact (litPoolFold_mem vals s.literalList).2 v hhead
          exact (ih (pass1Line s (.lit vals))).1 v hv'
        · exact (ih (pass1Line s (.lit vals))).2 v htail
      | con n =>
        have htail : v ∈ srcLitValues rest := by simpa [srcLitValues] using hv
        exact (ih (pass1Line s (.con n))).2 v htail

/-- C7 (amended).  The pre-pass `LIT` scan fills only the function-local
`temp_literal_pool`, whose size is bound to a local variable and never
used; the assembler's literal pool is *empty* at the moment Pass 1
begins processing source lines (the set-up clears it), and it contains
every value appearing in the source's `LIT` directives only once Pass 1
has completed — so the literal block size is known after Pass 1 (before
the layout step), not before Pass 1 starts. -/
theorem prepass_literal_amended (lines : List SrcLine) :
    (performPass1Setup lines).state.literalList = [] ∧
    (∀ v, v ∈ srcLitValues lines → v ∈ (pass1Run lines).literalList) :=
  ⟨rfl, fun v hv => (pass1_literal_complete lines (performPass1Setup lines).state).2 v hv⟩

/-- C7 counterexample: for the one-line program `LIT 5`, the pre-pass
temporary pool does record the literal (size 1), but the assembler's
literal pool is empty — it does *not* contain 5 — at the moment Pass 1
begins processing source lines, contradicting the claim. -/
theorem prepass_literal_counterexample :
    (5 : Int) ∈ srcLitValues [SrcLine.lit [5]] ∧
    (performPass1Setup [SrcLine.lit [5]]).tempLiteralPoolSize = 1 ∧
    (performPass1Setup [SrcLine.lit [5]]).state.literalList = [] ∧
    ¬ ((5 : Int) ∈ (performPass1Setup [SrcLine.lit [5]]).state.literalList) := by
  refine ⟨by decide, by decide, by decide, by decide⟩

/-- Witness for C7's amended theorem: on `LIT 5` the pool is empty at
Pass-1 start and contains 5 after Pass 1. -/
theorem prepass_literal_amended_witness :
    (performPass1Setup [SrcLine.lit [5]]).state.literalList = [] ∧
    (5 : Int) ∈ (pass1Run [SrcLine.lit [5]]).literalList :=
  ⟨(prepass_literal_amended [SrcLine.lit [5]]).1,
   (prepass_literal_amended [SrcLine.lit [5]]).2 5 (by decide)⟩

end Crass

namespace Crass

set_option maxRecDepth 40000 in
/-- On every canonical tag the operand parser can produce, the code's
gating condition for preferring 30-bit — `implies_K_field_for_15bit`,
tag ≠ `"JK"`, and not `is_typical_15bit_reg_format` — coincides with
the claim's address-like-K condition (bare `K`, or ending in `,K`,
`+K`, `-K`, and not the compact `JK` form). -/
theorem addressLike_eq (pf : ParsedFmt) :
    ((impliesKField pf.render && decide (pf.render ≠ ['J', 'K'])) &&
        !isTypical15BitRegFormat pf.render)
      = claimAddressLikeK pf.render := by
  revert pf
  decide

theorem assembleChooseAux_30 (parse : ParseOracle) (allDefs : List InstrDef)
    (hlen : allDefs.length > 1)
    (hany : allDefs.any (fun x => x.width = 30) = true) :
    ∀ l : List InstrDef,
      List.Pairwise (fun a b => a.width ≤ b.width) l →
      (∀ d ∈ l, d.width = 15 ∨ d.width = 30 ∨ d.width = 60) →
      (∀ d ∈ l, d.width = 15 →
          ∀ pf, parse d.fmt = some pf → claimAddressLikeK pf.render = true) →
      (∃ d30, d30 ∈ l ∧ d30.width = 30 ∧ (parse d30.fmt).isSome = true) →
      ∃ dc pfc, assembleChooseAux parse allDefs l = some (dc, pfc) ∧
        dc.width = 30 := by
  intro l
  induction l with
  | nil =>
    intro _ _ _ hex
    rcases hex with ⟨d, hd, _⟩
    simp at hd
  | cons d rest ih =>
    intro hsort hwidths h15 hex
    obtain ⟨hdle, hsort'⟩ := List.pairwise_cons.mp hsort
    have hwidths' : ∀ x ∈ rest, x.width = 15 ∨ x.width = 30 ∨ x.width = 60 :=
      fun x hx => hwidths x (List.mem_cons_of_mem d hx)
    have h15' : ∀ x ∈ rest, x.width = 15 →
        ∀ pf, parse x.fmt = some pf → claimAddressLikeK pf.render = true :=
      fun x hx => h15 x (List.mem_cons_of_mem d hx)
    cases hparse : parse d.fmt with
    | none =>
      have hex' : ∃ d30, d30 ∈ rest ∧ d30.width = 30 ∧ (parse d30.fmt).isSome = true := by
        rcases hex with ⟨d30, hmem, hw, hp⟩
        rcases List.mem_cons.mp hmem with rfl | hmem'
        · rw [hparse] at hp; simp at hp
        · exact ⟨d30, hmem', hw, hp⟩
      simp only [assembleChooseAux, hparse]
      exact ih hsort' hwidths' h15' hex'
    | some pf =>
      by_cases hw15 : d.width = 15
      · have hcl := h15 d (List.mem_cons_self d rest) hw15 pf hparse
        have hia : (impliesKField pf.render && !isTypical15BitRegFormat pf.render)
            = true := by
          have heq := addressLike_eq pf
          rw [hcl] at heq
          simp only [Bool.and_eq_true] at heq
          simp [heq.1.1, heq.2]
        have hex' : ∃ d30, d30 ∈ rest ∧ d30.width = 30 ∧ (parse d30.fmt).isSome = true := by
          rcases hex with ⟨d30, hmem, hw, hp⟩
          rcases List.mem_cons.mp hmem with rfl | hmem'
          · rw [hw] at hw15; omega
          · exact ⟨d30, hmem', hw, hp⟩
        simp only [assembleChooseAux, hparse]
        rw [if_pos ⟨hlen, hw15, hia, hany⟩]
        exact ih hsort' hwidths' h15' hex'
      · simp only [assembleChooseAux, hparse]
        rw [if_neg (fun h => hw15 h.2.1)]
        refine ⟨d, pf, rfl, ?_⟩
        rcases hex with ⟨d30, hmem, hw, hp⟩
        rcases List.mem_cons.mp hmem with rfl | hmem'
        · exact hw
        · rcases hwidths d (List.mem_cons_self d rest) with h | h | h
          · exact absurd h hw15
          · exact h
          · have := hdle d30 hmem'
            rw [hw] at this
            omega

/-- C3.  15/30-bit width resolution for a mnemonic having both a
15-bit and a 30-bit table definition, over the parse oracle.

Pass 1 (`_estimate_instruction_width_pass1`): when the 15-bit attempt
succeeds with canonical tag `pf`, the estimate is 30 exactly when `pf`
is address-like in the claim's sense *and* some 30-bit candidate
parses; in every other case the estimate is 15, the shortest
successful parse.

Pass 2 (`assemble_instruction`'s selection loop, on the width-sorted
definition list): when every successful 15-bit parse is address-like
and some 30-bit candidate parses, the chosen definition is a 30-bit
one. -/
theorem width_resolution_15_30 (parse : ParseOracle) (defs : List InstrDef) :
    (∀ pf, firstParse parse (defs.filter (fun d => d.width = 15)) = some pf →
        defs.filter (fun d => d.width = 30) ≠ [] →
        estimateInstructionWidthPass1 parse defs
          = if claimAddressLikeK pf.render &&
                any30Parses parse (defs.filter (fun d => d.width = 30)) then 30
            else 15) ∧
    (List.Pairwise (fun a b => a.width ≤ b.width) defs →
        (∀ d ∈ defs, d.width = 15 ∨ d.width = 30 ∨ d.width = 60) →
        (∀ d ∈ defs, d.width = 15 →
            ∀ pf, parse d.fmt = some pf → claimAddressLikeK pf.render = true) →
        (∃ d15, d15 ∈ defs ∧ d15.width = 15) →
        (∃ d30, d30 ∈ defs ∧ d30.width = 30 ∧ (parse d30.fmt).isSome = true) →
        ∃ dc pfc, assembleChoose parse defs = some (dc, pfc) ∧ dc.width = 30) := by
  constructor
  · intro pf h15 h30
    simp only [estimateInstructionWidthPass1, h15]
    rw [if_pos h30]
    have heq := addressLike_eq pf
    rw [heq]
    cases hc : claimAddressLikeK pf.render <;>
      cases ha : any30Parses parse (defs.filter (fun d => d.width = 30)) <;>
      simp [hc, ha]
  · intro hsort hwidths h15 hd15 hd30
    rcases hd15 with ⟨d15, h15mem, h15w⟩
    rcases hd30 with ⟨d30, h30mem, h30w, h30p⟩
    have hlen : defs.length > 1 := by
      match defs, h15mem, h30mem with
      | [a], ha, hb =>
        simp only [List.mem_singleton] at ha hb
        rw [ha] at h15w
        rw [hb] at h30w
        omega
      | a :: b :: l, _, _ => simp
    have hany : defs.any (fun x => x.width = 30) = true :=
      List.any_eq_true.mpr ⟨d30, h30mem, by simp [h30w]⟩
    exact assembleChooseAux_30 parse defs hlen hany defs hsort hwidths h15
      ⟨d30, h30mem, h30w, h30p⟩

/-- A concrete oracle for the witness: the `SA`-style situation where
the operand is a bare address expression — both the 15-bit format
`AJ+BK` and the 30-bit format `AJ+K` parse it as a bare `K`. -/
def witnessParse : ParseOracle := fun fmt =>
  if fmt = ['A', 'J', '+', 'B', 'K'] then some .bareK
  else if fmt = ['A', 'J', '+', 'K'] then some .bareK
  else none

def witnessDefs : List InstrDef :=
  [⟨15, ['A', 'J', '+', 'B', 'K']⟩, ⟨30, ['A', 'J', '+', 'K']⟩]

set_option maxRecDepth 40000 in
/-- Witness for C3: with a 15-bit and a 30-bit definition and a bare-K
operand, both resolvers pick 30 bits. -/
theorem width_resolution_15_30_witness :
    estimateInstructionWidthPass1 witnessParse witnessDefs = 30 ∧
    (∃ dc pfc, assembleChoose witnessParse witnessDefs = some (dc, pfc) ∧
        dc.width = 30) := by
  constructor
  · have h := (width_resolution_15_30 witnessParse witnessDefs).1 ParsedFmt.bareK
      (by decide) (by decide)
    rw [h]
    decide
  · exact (width_resolution_15_30 witnessParse witnessDefs).2 (by decide) (by decide)
      (by decide) (by decide) (by decide)

end Crass
